import Mathlib

/-!
Shallow embedding of `src/git_profile.py`, a one-shot batch job that fetches a
GitHub user's profile and repository list and renders a Markdown summary.

Python strings are modelled as lists of characters (`Str`), Python `None` as
`Option`, and the stable `list.sort(key, reverse=True)` calls as
`List.mergeSort` with the corresponding "greater or equal key" boolean
relation (stable descending order, which is what CPython's stable sort with
`reverse=True` produces).  Network responses are inputs to the embedded
functions; raised exceptions become explicit outcome values.
-/

namespace GitProfile

/-- Python `str` modelled as a list of characters (code points). -/
abbrev Str := List Char

/-- Helper to write `Str` literals. -/
def str (s : String) : Str := s.data

/-- Python's whitespace test for `str.split()` / `str.strip()` (ASCII subset:
space, tab, newline, carriage return, vertical tab, form feed). -/
def pyIsSpace (c : Char) : Bool :=
  c = ' ' || c = '\t' || c = '\n' || c = '\r' || c = '\x0b' || c = '\x0c'

/-- Worker for Python `str.split()` with no separator: splits on runs of
whitespace and drops empty pieces.  `acc` holds the current word, reversed. -/
def splitWsAux : Str → Str → List Str
  | [], acc => if acc.isEmpty then [] else [acc.reverse]
  | c :: cs, acc =>
    if pyIsSpace c then
      if acc.isEmpty then splitWsAux cs [] else acc.reverse :: splitWsAux cs []
    else splitWsAux cs (c :: acc)

/-- Python `s.split()` (no separator argument). -/
def pySplit (s : Str) : List Str := splitWsAux s []

/-- Python `" ".join(s.split())`: collapse whitespace runs to single spaces,
dropping leading/trailing whitespace. -/
def collapseWs (s : Str) : Str := List.intercalate [' '] (pySplit s)

/-- Python slice `s[:k]` for an arbitrary integer `k` (a negative `k` counts
from the end of the string). -/
def pySlice (s : Str) (k : Int) : Str :=
  if k < 0 then s.take (s.length - (-k).toNat) else s.take k.toNat

/-- Python `s.strip()`: remove leading and trailing whitespace. -/
def pyStrip (s : Str) : Str :=
  ((s.dropWhile pyIsSpace).reverse.dropWhile pyIsSpace).reverse

/-- The ellipsis marker `…` appended by `truncate`. -/
def ellipsisChar : Char := '…'

/-- Model of `truncate` from `git_profile.py`:

```
def truncate(s, n=120):
    if not s: return ""
    s = " ".join(s.split())
    return (s[: n - 1] + "…") if len(s) > n else s
```

`s` may be `None` (modelled as `none`); `not s` is true for `None` and `""`. -/
def truncate (s : Option Str) (n : Nat) : Str :=
  match s with
  | none => []
  | some s0 =>
    if s0.isEmpty then []
    else
      let s1 := collapseWs s0
      if s1.length > n then pySlice s1 ((n : Int) - 1) ++ [ellipsisChar] else s1

/-- Python `x or d` for an optional string `x`: `None` and `""` are falsy. -/
def pyOr (o : Option Str) (d : Str) : Str :=
  match o with
  | none => d
  | some s => if s.isEmpty then d else s

/-- Model of `md_link` from `git_profile.py`: render `[text](url)` when `url` is
truthy, else just `text` (`None` and `""` are falsy). -/
def md_link (text : Str) (url : Option Str) : Str :=
  match url with
  | none => text
  | some u => if u.isEmpty then text else str "[" ++ text ++ str "](" ++ u ++ str ")"

/-- Python `str(i)` for an `int`. -/
def showInt (i : Int) : Str := (toString i).data

/-- One repository record, as consumed by this program (the fields of the API
response that `git_profile.py` reads).  A missing/`null` JSON field is `none`
for the string fields; the count fields default to `0` via `.get(_, 0)` and
the fork flag is falsy when missing, so they are modelled directly. -/
structure Repo where
  name : Str
  html_url : Option Str
  stargazers_count : Int
  forks_count : Int
  description : Option Str
  fork : Bool
  pushed_at : Option Str
  updated_at : Option Str
deriving DecidableEq

/-- The sort relation materialising
`own.sort(key=lambda r: (r.get("stargazers_count", 0), r.get("forks_count", 0)), reverse=True)`:
`keyGe a b` holds when `a`'s key `(stars, forks)` is lexicographically `≥`
`b`'s key.  CPython's stable sort with `reverse=True` is exactly the stable
descending sort, i.e. `mergeSort` with this relation. -/
def keyGe (a b : Repo) : Bool :=
  decide (b.stargazers_count < a.stargazers_count ∨
    (b.stargazers_count = a.stargazers_count ∧ b.forks_count ≤ a.forks_count))

/-- Model of `top_repos_by_stars` from `git_profile.py`: drop forks, stable-sort by
`(stars, forks)` descending, take the first `n`. -/
def top_repos_by_stars (repos : List Repo) (n : Nat) : List Repo :=
  let own := repos.filter (fun r => !r.fork)
  (own.mergeSort keyGe).take n

/-- The placeholder row emitted when no repositories survive filtering. -/
def placeholderRow : Str := str "| – | – | – | No repositories found |"

/-- One table row of `repos_table_rows`. -/
def repoRow (r : Repo) : Str :=
  str "| " ++ md_link r.name r.html_url ++ str " | " ++ showInt r.stargazers_count ++
    str " | " ++ showInt r.forks_count ++ str " | " ++
    truncate (some (pyOr r.description [])) 80 ++ str " |"

/-- Model of `repos_table_rows` from `git_profile.py`. -/
def repos_table_rows (repos : List Repo) (n : Nat) : List Str :=
  let rows := (top_repos_by_stars repos n).map repoRow
  if rows.isEmpty then [placeholderRow] else rows

/-- Code-point lexicographic strict comparison of strings (Python `<` on
`str`). -/
def strLt : Str → Str → Bool
  | _, [] => false
  | [], _ :: _ => true
  | a :: as, b :: bs =>
    if a < b then true
    else if b < a then false
    else strLt as bs

/-- The effective activity timestamp of a repository:
`r.get("pushed_at") or r.get("updated_at") or ""`. -/
def effTs (r : Repo) : Str := pyOr r.pushed_at (pyOr r.updated_at [])

/-- The sort relation materialising
`sorted(repos, key=lambda r: r.get("pushed_at") or r.get("updated_at") or "", reverse=True)`:
`tsGe a b` holds when `a`'s effective timestamp is `≥` `b`'s. -/
def tsGe (a b : Repo) : Bool := !(strLt (effTs a) (effTs b))

/-- The sentence rendered for the most recently pushed repository. -/
def activitySentence (r : Repo) : Str :=
  str "Latest push: **" ++ (effTs r).take 10 ++ str "** to " ++
    md_link r.name (some (r.html_url.getD []))

/-- Model of `recent_activity_hint` from `git_profile.py`.  The `[]` branch of the
inner match is unreachable: the sorted list of a non-empty list is
non-empty. -/
def recent_activity_hint (repos : List Repo) : Str :=
  if repos.isEmpty then str "No public activity found."
  else
    match repos.mergeSort tsGe with
    | [] => []
    | latest :: _ => activitySentence latest

/-- The user record, as consumed by `build_markdown`. -/
structure User where
  login : Str
  name : Option Str
  location : Option Str
  blog : Option Str
  email : Option Str
  created_at : Option Str
  public_repos : Int
  followers : Int
  following : Int
  public_gists : Int
  html_url : Option Str
deriving DecidableEq

/-- Python `s or "–"` as used in the profile section. -/
def orDash (s : Str) : Str := if s.isEmpty then str "–" else s

/-- Python `'\n'.join`. -/
def joinNl (lines : List Str) : Str := List.intercalate ['\n'] lines

/-- Space or tab, the characters `textwrap.dedent` treats as indentation. -/
def isTabOrSpace (c : Char) : Bool := c = ' ' || c = '\t'

/-- Split a string on newline characters (Python line structure as used by
`textwrap.dedent`). -/
def splitNl : Str → List Str
  | [] => [[]]
  | c :: cs =>
    let rest := splitNl cs
    if c = '\n' then [] :: rest
    else
      match rest with
      | [] => [[c]]
      | l :: ls => (c :: l) :: ls

/-- Longest common prefix of two strings. -/
def commonPrefix : Str → Str → Str
  | a :: as, b :: bs => if a = b then a :: commonPrefix as bs else []
  | _, _ => []

/-- Model of `textwrap.dedent`: blank out whitespace-only lines, compute the common
leading space/tab margin of the remaining non-empty lines, and strip it. -/
def dedent (s : Str) : Str :=
  let lines := (splitNl s).map (fun l => if !l.isEmpty && l.all isTabOrSpace then [] else l)
  let indents := (lines.filter (fun l => !l.isEmpty)).map (List.takeWhile isTabOrSpace)
  let margin := match indents with
    | [] => []
    | i :: is => is.foldl commonPrefix i
  if margin.isEmpty then joinNl lines
  else joinNl (lines.map (fun l => if margin.isPrefixOf l then l.drop margin.length else l))

/-- Model of `build_markdown` from `git_profile.py`.  `today` is the value of
`datetime.date.today().isoformat()`, the renderer's only external input. -/
def build_markdown (user : User) (repos : List Repo) (today : Str) : Str :=
  let username := user.login
  let name := pyOr user.name []
  let location := pyOr user.location []
  let blog := pyOr user.blog []
  let email := pyOr user.email []
  let created_at := (pyOr user.created_at []).take 10
  let profile_url := user.html_url.getD (str "https://github.com/" ++ username)
  let pinned_rows := repos_table_rows repos 6
  let activity := recent_activity_hint repos
  let md :=
    str "# GitHub User Information\n\n## 👤 Profile\n- **Username:** `" ++ username ++
    str "` (" ++ md_link (str "view profile") (some profile_url) ++
    str ")\n- **Full Name:** " ++ orDash name ++
    str "\n- **Location:** " ++ orDash location ++
    str "\n- **Website/Portfolio:** " ++ (if blog.isEmpty then str "–" else md_link blog (some blog)) ++
    str "\n- **Email:** " ++ orDash email ++
    str "\n- **Joined GitHub:** " ++ orDash created_at ++
    str "\n\n## 📊 Stats\n- **Public Repositories:** " ++ showInt user.public_repos ++
    str "\n- **Followers:** " ++ showInt user.followers ++
    str "\n- **Following:** " ++ showInt user.following ++
    str "\n- **Gists:** " ++ showInt user.public_gists ++
    str "\n\n## 📈 Activity\n- " ++ activity ++
    str "\n\n## 📂 Top Repositories (by ⭐)\n| Repository | Stars ⭐ | Forks 🍴 | Description |\n|------------|---------:|---------:|-------------|\n" ++
    joinNl pinned_rows ++
    str "\n\n---\n*Generated: " ++ today ++ str "*\n"
  pyStrip (dedent md) ++ ['\n']

/-- HTTP response metadata seen by `gh_get`: status code, body text, and the
two rate-limit headers (absent headers are `none`). -/
structure RespMeta where
  status : Nat
  bodyText : Str
  rlRemaining : Option Str
  rlReset : Option Str
deriving DecidableEq

/-- Failures raised below `main`.  `sysExit` models `raise SystemExit(msg)`
(a `BaseException`, not caught by `except Exception`); `httpError` models the
`requests.HTTPError` raised by `raise_for_status()`. -/
inductive GhError where
  | sysExit (msg : Str)
  | httpError (status : Nat) (body : Str)
deriving DecidableEq

/-- Python `needle in hay` for strings: substring test. -/
def strContains (hay needle : Str) : Bool :=
  match hay with
  | [] => needle.isEmpty
  | _ :: t => needle.isPrefixOf hay || strContains t needle

/-- Python `"rate limit" in r.text.lower()`. -/
def rateLimitedBody (body : Str) : Bool :=
  strContains (body.map Char.toLower) (str "rate limit")

/-- URL of the user endpoint: `f"{API_BASE}/users/{username}"`. -/
def userUrl (username : Str) : Str := str "https://api.github.com/users/" ++ username

/-- URL of the repos endpoint: `f"{API_BASE}/users/{username}/repos"`. -/
def reposUrl (username : Str) : Str := userUrl username ++ str "/repos"

/-- The status dispatch of `gh_get`: 404 and rate-limited 403 raise
`SystemExit` with their message; `raise_for_status()` raises `HTTPError` for
any 4xx/5xx; otherwise the response is returned (`none`: no exception). -/
def gh_get_check (url : Str) (m : RespMeta) : Option GhError :=
  if m.status = 404 then some (.sysExit (str "❌ Not found: " ++ url))
  else if m.status = 403 && rateLimitedBody m.bodyText then
    some (.sysExit (str "❌ Rate limited (remaining=" ++ m.rlRemaining.getD (str "?") ++
      str ", reset=" ++ m.rlReset.getD (str "?") ++ str "). Provide GH_TOKEN."))
  else if 400 ≤ m.status ∧ m.status < 600 then some (.httpError m.status m.bodyText)
  else none

/-- Model of `fetch_user`: one GET of the user endpoint; `userResp` is the network's
response (metadata plus parsed JSON payload). -/
def fetch_user (username : Str) (userResp : RespMeta × User) : Except GhError User :=
  match gh_get_check (userUrl username) userResp.1 with
  | some e => .error e
  | none => .ok userResp.2

/-- Loop body of `fetch_repos`.  `pages p` is the network's response to the
GET for page `p`.  The second component counts issued page requests.  `fuel`
bounds the remaining iterations; the loop itself stops at the first empty
batch or when the incremented page number exceeds 10, so with initial fuel 10
the fuel is never exhausted. -/
def fetchReposAux (username : Str) (pages : Nat → RespMeta × List Repo) :
    Nat → Nat → Except GhError (List Repo) × Nat
  | _, 0 => (.ok [], 0)
  | page, fuel + 1 =>
    match gh_get_check (reposUrl username) (pages page).1 with
    | some e => (.error e, 1)
    | none =>
      if ((pages page).2).isEmpty then (.ok [], 1)
      else if page + 1 > 10 then (.ok (pages page).2, 1)
      else
        match fetchReposAux username pages (page + 1) fuel with
        | (.error e, cnt) => (.error e, cnt + 1)
        | (.ok rs, cnt) => (.ok ((pages page).2 ++ rs), cnt + 1)

/-- Model of `fetch_repos`: paginated listing starting at page 1. -/
def fetch_repos (username : Str) (pages : Nat → RespMeta × List Repo) :
    Except GhError (List Repo) × Nat :=
  fetchReposAux username pages 1 10

/-- Outcome of one run of `main`: `exit` is an uncaught `SystemExit` (process
terminates with the message, no file written); `ok` is the successful path
(the output file is written with `content` and the confirmation line is
printed); `fail1` is the `except` path (error printed to stderr, exit code 1,
no file written). -/
inductive MainOutcome where
  | exit (msg : Str)
  | ok (path : Str) (content : Str) (stdoutLine : Str)
  | fail1 (e : GhError)
deriving DecidableEq

/-- Model of `main` from `git_profile.py`, over explicit network responses and the
current date.  `SystemExit` escapes the `try` block (it is not an
`Exception`), while `requests.HTTPError` is caught and mapped to exit code
1. -/
def mainRun (username outPath : Str) (userResp : RespMeta × User)
    (pages : Nat → RespMeta × List Repo) (today : Str) : MainOutcome :=
  match fetch_user username userResp with
  | .error (.sysExit m) => .exit m
  | .error e => .fail1 e
  | .ok user =>
    match (fetch_repos username pages).1 with
    | .error (.sysExit m) => .exit m
    | .error e => .fail1 e
    | .ok repos =>
      .ok outPath (build_markdown user repos today)
        (str "✅ Wrote " ++ outPath ++ str " for user '" ++ username ++ str "'")

/-! ### Sample data used by the witness theorems -/

/-- A non-fork repository with 5 stars and 1 fork (the spec's repo `a`). -/
def sampleA : Repo :=
  ⟨str "a", some (str "https://github.com/u/a"), 5, 1, some (str "alpha"), false,
    some (str "2024-02-03T10:00:00Z"), none⟩

/-- A non-fork repository with 10 stars and 0 forks (the spec's repo `b`). -/
def sampleB : Repo :=
  ⟨str "b", some (str "https://github.com/u/b"), 10, 0, none, false,
    none, some (str "2024-03-04T11:00:00Z")⟩

/-- A repository flagged as a fork (the spec's repo `c`). -/
def sampleFork : Repo :=
  ⟨str "c", some (str "https://github.com/u/c"), 10, 3, none, true,
    some (str "2024-01-01T00:00:00Z"), none⟩

/-- A minimal user record. -/
def sampleUser : User :=
  ⟨str "alice", none, none, none, none, some (str "2020-01-02T00:00:00Z"),
    3, 4, 5, 6, none⟩

/-- A network where every repository page is an empty 200 response. -/
def pagesEmpty : Nat → RespMeta × List Repo := fun _ => (⟨200, [], none, none⟩, [])

/-! ### Whitespace-collapsing lemmas for `truncate` -/

theorem splitWsAux_allspace {ws : Str} (h : ∀ c ∈ ws, pyIsSpace c = true) (acc : Str) :
    splitWsAux ws acc = if acc.isEmpty then [] else [acc.reverse] := by
  induction ws generalizing acc with
  | nil => rfl
  | cons c cs ih =>
    have hc : pyIsSpace c = true := h c (by simp)
    have hcs : ∀ x ∈ cs, pyIsSpace x = true := fun x hx => h x (by simp [hx])
    have h0 : splitWsAux cs [] = [] := by simpa using ih hcs []
    by_cases ha : acc.isEmpty <;> simp [splitWsAux, hc, ha, h0]

theorem splitWsAux_append_allspace {ws : Str} (h : ∀ c ∈ ws, pyIsSpace c = true) :
    ∀ (s acc : Str), splitWsAux (s ++ ws) acc = splitWsAux s acc := by
  intro s
  induction s with
  | nil =>
    intro acc
    rw [List.nil_append, splitWsAux_allspace h acc]
    rfl
  | cons c cs ih =>
    intro acc
    show splitWsAux (c :: (cs ++ ws)) acc = splitWsAux (c :: cs) acc
    by_cases hc : pyIsSpace c <;> by_cases ha : acc.isEmpty <;>
      simp [splitWsAux, hc, ha, ih]

theorem pySplit_dropWhile (s : Str) : pySplit (s.dropWhile pyIsSpace) = pySplit s := by
  induction s with
  | nil => rfl
  | cons c cs ih =>
    by_cases hc : pyIsSpace c
    · rw [List.dropWhile_cons_of_pos hc]
      rw [ih]
      show pySplit cs = splitWsAux (c :: cs) []
      simp [pySplit, splitWsAux, hc]
    · rw [List.dropWhile_cons_of_neg hc]

theorem rev_decomp (l : Str) (p : Char → Bool) :
    l = (l.reverse.dropWhile p).reverse ++ (l.reverse.takeWhile p).reverse := by
  conv_lhs => rw [← List.reverse_reverse l,
    ← List.takeWhile_append_dropWhile (p := p) (l := l.reverse)]
  rw [List.reverse_append]

theorem pySplit_strip (s : Str) : pySplit (pyStrip s) = pySplit s := by
  unfold pyStrip
  have htrail : ∀ c ∈ ((s.dropWhile pyIsSpace).reverse.takeWhile pyIsSpace).reverse,
      pyIsSpace c = true := by
    intro c hc
    rw [List.mem_reverse] at hc
    exact List.mem_takeWhile_imp hc
  calc pySplit (((s.dropWhile pyIsSpace).reverse.dropWhile pyIsSpace).reverse)
      = pySplit (((s.dropWhile pyIsSpace).reverse.dropWhile pyIsSpace).reverse ++
          ((s.dropWhile pyIsSpace).reverse.takeWhile pyIsSpace).reverse) :=
        (splitWsAux_append_allspace htrail _ []).symm
    _ = pySplit (s.dropWhile pyIsSpace) := by rw [← rev_decomp]
    _ = pySplit s := pySplit_dropWhile s

theorem collapseWs_strip (s : Str) : collapseWs (pyStrip s) = collapseWs s := by
  unfold collapseWs
  rw [pySplit_strip]

theorem pySlice_ofNonneg (s : Str) (k : Int) (hk : 0 ≤ k) :
    pySlice s k = s.take k.toNat := by
  simp [pySlice, not_lt.mpr hk]

/-! ### C1, C10: `truncate` -/

/-- C1 (counterexample to the claim as stated): at `S = "ab"`, `L = 0` the
collapsed string has positive length, so the claim requires the result to
have length exactly `0`; the code instead evaluates the Python slice
`s[:-1]`, producing `"a…"` of length 2. -/
theorem C1_counterexample :
    ¬ (collapseWs (str "ab")).length ≤ 0 ∧
    (truncate (some (str "ab")) 0).length ≠ 0 := by decide

/-- C1 (amended: the truncation branch requires `L ≥ 1`): for every string
`S` and limit `L ≥ 1`, if the collapsed string has length at most `L` then
`truncate` returns it unchanged, and otherwise it returns the collapsed
string cut to `L - 1` characters with the ellipsis appended, a string of
length exactly `L` ending with the ellipsis marker. -/
theorem C1_truncate_spec (S : Str) (L : Nat) (hL : 1 ≤ L) :
    ((collapseWs S).length ≤ L → truncate (some S) L = collapseWs S) ∧
    (L < (collapseWs S).length →
      truncate (some S) L = (collapseWs S).take (L - 1) ++ [ellipsisChar] ∧
      (truncate (some S) L).length = L ∧
      (truncate (some S) L).getLast? = some ellipsisChar) := by
  by_cases hS : S.isEmpty
  · have hS' : S = [] := by simpa [List.isEmpty_iff] using hS
    subst hS'
    refine ⟨fun _ => rfl, fun hgt => absurd hgt (by simp [show collapseWs [] = [] from rfl])⟩
  · have hione : ((L : Int) - 1).toNat = L - 1 := by omega
    constructor
    · intro hle
      simp [truncate, hS, not_lt.mpr hle]
    · intro hgt
      have htr : truncate (some S) L =
          (collapseWs S).take (L - 1) ++ [ellipsisChar] := by
        simp only [truncate, hS, Bool.false_eq_true, if_false, if_pos hgt]
        rw [pySlice_ofNonneg _ _ (by omega), hione]
      refine ⟨htr, ?_, ?_⟩
      · rw [htr]
        simp only [List.length_append, List.length_take, List.length_cons,
          List.length_nil]
        omega
      · rw [htr, List.getLast?_concat]

/-- C1 witness: truncating `"ab cd"` at limit 3 keeps 2 characters and
appends the ellipsis, giving a string of length exactly 3. -/
theorem C1_witness :
    truncate (some (str "ab cd")) 3 = (collapseWs (str "ab cd")).take (3 - 1) ++ [ellipsisChar] ∧
    (truncate (some (str "ab cd")) 3).length = 3 ∧
    (truncate (some (str "ab cd")) 3).getLast? = some ellipsisChar :=
  (C1_truncate_spec (str "ab cd") 3 (by decide)).2 (by decide)

/-- C10: `truncate` normalizes edge inputs: `None` and `""` give `""`, and
the result is unchanged when the input string is first stripped of leading
and trailing whitespace. -/
theorem C10_truncate_edge (s : Str) (n : Nat) :
    truncate none n = [] ∧ truncate (some []) n = [] ∧
    truncate (some s) n = truncate (some (pyStrip s)) n := by
  refine ⟨rfl, rfl, ?_⟩
  by_cases hs : s.isEmpty
  · have hs' : s = [] := by simpa [List.isEmpty_iff] using hs
    subst hs'
    rfl
  · by_cases hst : (pyStrip s).isEmpty
    · have hst' : pyStrip s = [] := by simpa [List.isEmpty_iff] using hst
      have hcol : collapseWs s = [] := by
        rw [← collapseWs_strip, hst']
        rfl
      simp [truncate, hs, hst, hcol]
    · simp only [truncate, hs, hst, Bool.false_eq_true, if_false]
      rw [collapseWs_strip]

/-! ### C4: `repos_table_rows` never empty -/

/-- C4: `repos_table_rows` always returns a non-empty sequence, and when no
repository survives fork-filtering it returns exactly the single placeholder
row. -/
theorem C4_rows_nonempty (repos : List Repo) (n : Nat) :
    repos_table_rows repos n ≠ [] ∧
    (repos.filter (fun r => !r.fork) = [] →
      repos_table_rows repos n = [placeholderRow]) := by
  constructor
  · unfold repos_table_rows
    by_cases h : ((top_repos_by_stars repos n).map repoRow).isEmpty <;>
      simp_all [List.isEmpty_iff]
  · intro h
    simp [repos_table_rows, top_repos_by_stars, h]

/-- C4 witness: on a list containing only a fork, `repos_table_rows` is
exactly the placeholder row. -/
theorem C4_witness : repos_table_rows [sampleFork] 6 = [placeholderRow] :=
  (C4_rows_nonempty [sampleFork] 6).2 (by decide)

/-! ### C5: pagination bounds -/

theorem fetchReposAux_count_le (u : Str) (pages : Nat → RespMeta × List Repo) :
    ∀ (fuel page : Nat), (fetchReposAux u pages page fuel).2 ≤ fuel := by
  intro fuel
  induction fuel with
  | zero => intro page; simp [fetchReposAux]
  | succ f ih =>
    intro page
    rcases hrec : fetchReposAux u pages (page + 1) f with ⟨res, cnt⟩
    have hcnt : cnt ≤ f := by
      have := ih (page + 1)
      rw [hrec] at this
      exact this
    simp only [fetchReposAux]
    split
    · simp
    · split
      · simp
      · split
        · simp
        · rw [hrec]
          cases res <;> simp <;> omega

theorem fetchReposAux_len_le (u : Str) (pages : Nat → RespMeta × List Repo)
    (hp : ∀ p, ((pages p).2).length ≤ 100) :
    ∀ (fuel page : Nat) (rs : List Repo),
      (fetchReposAux u pages page fuel).1 = .ok rs → rs.length ≤ 100 * fuel := by
  intro fuel
  induction fuel with
  | zero =>
    intro page rs h
    simp only [fetchReposAux] at h
    simp only [Except.ok.injEq] at h
    subst h
    simp
  | succ f ih =>
    intro page rs h
    rcases hrec : fetchReposAux u pages (page + 1) f with ⟨res, cnt⟩
    simp only [fetchReposAux] at h
    split at h
    · simp at h
    · split at h
      · simp only [Except.ok.injEq] at h
        subst h
        simp
      · split at h
        · simp only [Except.ok.injEq] at h
          subst h
          have := hp page
          omega
        · rw [hrec] at h
          cases res with
          | error e => simp at h
          | ok rs' =>
            simp only [Except.ok.injEq] at h
            have h1 := hp page
            have h2 : rs'.length ≤ 100 * f := by
              apply ih (page + 1)
              rw [hrec]
            subst h
            rw [List.length_append]
            omega

/-- C5: the repository-listing loop issues at most 10 page requests (the
count is the second component of `fetch_repos`); if every page holds at most
100 repositories, a successful result holds at most 1000 repositories; and
the loop stops at the first empty page (an empty first page gives an empty
result after a single request).  Termination itself holds by construction:
`fetchReposAux` is a total function, structurally recursive on the page
budget. -/
theorem C5_fetch_repos_bounds (username : Str) (pages : Nat → RespMeta × List Repo) :
    (fetch_repos username pages).2 ≤ 10 ∧
    ((∀ p, ((pages p).2).length ≤ 100) →
      ∀ rs, (fetch_repos username pages).1 = .ok rs → rs.length ≤ 1000) ∧
    (gh_get_check (reposUrl username) (pages 1).1 = none → (pages 1).2 = [] →
      fetch_repos username pages = (.ok [], 1)) := by
  refine ⟨fetchReposAux_count_le username pages 10 1, fun hp rs h => ?_, fun h1 h2 => ?_⟩
  · have := fetchReposAux_len_le username pages hp 10 1 rs h
    omega
  · show fetchReposAux username pages 1 (9 + 1) = (.ok [], 1)
    simp [fetchReposAux, h1, h2]

/-- C5 witness: on a network whose first page is an empty 200 response, the
loop issues one request, stays within the bounds, and returns no
repositories. -/
theorem C5_witness :
    (fetch_repos (str "alice") pagesEmpty).2 ≤ 10 ∧
    ([] : List Repo).length ≤ 1000 ∧
    fetch_repos (str "alice") pagesEmpty = (.ok [], 1) :=
  ⟨(C5_fetch_repos_bounds (str "alice") pagesEmpty).1,
   (C5_fetch_repos_bounds (str "alice") pagesEmpty).2.1
     (fun _ => by simp [pagesEmpty]) [] rfl,
   (C5_fetch_repos_bounds (str "alice") pagesEmpty).2.2 rfl rfl⟩

/-! ### C7: determinism of the renderer -/

/-- C7: `build_markdown` is deterministic: it is a pure function of the user
record, the repository list, and the current date (its only external input),
so identical inputs give byte-identical output. -/
theorem C7_build_markdown_deterministic (u u' : User) (r r' : List Repo)
    (t t' : Str) (hu : u = u') (hr : r = r') (ht : t = t') :
    build_markdown u r t = build_markdown u' r' t' := by
  subst hu
  subst hr
  subst ht
  rfl

/-- C7 witness. -/
theorem C7_witness :
    build_markdown sampleUser [] (str "2026-10-12") =
      build_markdown sampleUser [] (str "2026-10-12") :=
  C7_build_markdown_deterministic sampleUser sampleUser [] [] (str "2026-10-12")
    (str "2026-10-12") rfl rfl rfl

/-! ### C8: 404 handling -/

/-- A 404 response to the user endpoint. -/
def meta404 : RespMeta := ⟨404, [], none, none⟩

/-- C8: when a GET receives HTTP 404 — on the user endpoint, or on the first
repository page after a successful user fetch — the run's outcome is
`.exit` with the descriptive "Not found" message raised by `gh_get`'s
`SystemExit`.  The `.exit` outcome writes no output file and bypasses the
`except` handlers of `main` (which produce `.fail1`). -/
theorem C8_notfound_exits (username outPath : Str) (meta : RespMeta) (user : User)
    (pages : Nat → RespMeta × List Repo) (today : Str) :
    (meta.status = 404 →
      mainRun username outPath (meta, user) pages today =
        .exit (str "❌ Not found: " ++ userUrl username)) ∧
    (gh_get_check (userUrl username) meta = none → (pages 1).1.status = 404 →
      mainRun username outPath (meta, user) pages today =
        .exit (str "❌ Not found: " ++ reposUrl username)) := by
  constructor
  · intro h404
    simp [mainRun, fetch_user, gh_get_check, h404]
  · intro hok h404
    have hrepos : (fetch_repos username pages).1 =
        .error (.sysExit (str "❌ Not found: " ++ reposUrl username)) := by
      show (fetchReposAux username pages 1 (9 + 1)).1 = _
      simp [fetchReposAux, gh_get_check, h404]
    simp only [mainRun, fetch_user, hok]
    rw [hrepos]

/-- C8 witness: a 404 user response terminates the run with the "Not found"
message and no file write. -/
theorem C8_witness :
    mainRun (str "alice") (str "GITHUB_USER_INFO.md") (meta404, sampleUser)
      pagesEmpty (str "2026-10-12") =
      .exit (str "❌ Not found: " ++ userUrl (str "alice")) :=
  (C8_notfound_exits (str "alice") (str "GITHUB_USER_INFO.md") meta404 sampleUser
    pagesEmpty (str "2026-10-12")).1 rfl

/-! ### C2, C3: fork filtering and star ranking -/

theorem keyGe_trans : ∀ (a b c : Repo), keyGe a b → keyGe b c → keyGe a c := by
  intro a b c hab hbc
  simp only [keyGe, decide_eq_true_eq] at *
  omega

theorem keyGe_total : ∀ (a b : Repo), keyGe a b || keyGe b a := by
  intro a b
  simp only [keyGe, Bool.or_eq_true, decide_eq_true_eq]
  omega

theorem top_repos_pairwise (repos : List Repo) (n : Nat) :
    (top_repos_by_stars repos n).Pairwise (fun a b => keyGe a b = true) := by
  apply List.Pairwise.sublist (List.take_sublist n _)
  exact List.sorted_mergeSort keyGe_trans keyGe_total _

/-- C2: in the output of `top_repos_by_stars`, a repository with strictly
more stars precedes one with fewer, and at equal stars one with strictly
more forks precedes: if position `i` beats position `j` on the key, then
`i < j`. -/
theorem C2_ranking_order (repos : List Repo) (n i j : Nat)
    (hi : i < (top_repos_by_stars repos n).length)
    (hj : j < (top_repos_by_stars repos n).length)
    (h : ((top_repos_by_stars repos n).get ⟨j, hj⟩).stargazers_count <
           ((top_repos_by_stars repos n).get ⟨i, hi⟩).stargazers_count ∨
         (((top_repos_by_stars repos n).get ⟨i, hi⟩).stargazers_count =
            ((top_repos_by_stars repos n).get ⟨j, hj⟩).stargazers_count ∧
          ((top_repos_by_stars repos n).get ⟨j, hj⟩).forks_count <
            ((top_repos_by_stars repos n).get ⟨i, hi⟩).forks_count)) :
    i < j := by
  by_contra hij
  push_neg at hij
  have hp := top_repos_pairwise repos n
  rw [List.pairwise_iff_getElem] at hp
  simp only [List.get_eq_getElem] at h
  rcases Nat.lt_or_ge j i with hlt | hge
  · have hji := hp j i hj hi hlt
    simp only [keyGe, decide_eq_true_eq] at hji
    omega
  · have hij' : i = j := by omega
    subst hij'
    omega

unseal List.merge List.mergeSort in
/-- C2 witness: with repositories of 5 and 10 stars, the 10-star repository
is at position 0 and the 5-star one at position 1. -/
theorem C2_witness :
    ((top_repos_by_stars [sampleA, sampleB] 6).get ⟨1, by decide⟩).stargazers_count <
      ((top_repos_by_stars [sampleA, sampleB] 6).get ⟨0, by decide⟩).stargazers_count ∧
    (0 : Nat) < 1 :=
  ⟨by decide,
   C2_ranking_order [sampleA, sampleB] 6 0 1 (by decide) (by decide)
     (Or.inl (by decide))⟩

/-- C3: no repository flagged as a fork appears in the output of
`top_repos_by_stars`. -/
theorem C3_no_forks (repos : List Repo) (n : Nat) (r : Repo)
    (h : r ∈ top_repos_by_stars repos n) : r.fork = false := by
  simp only [top_repos_by_stars] at h
  have h1 := List.mem_of_mem_take h
  rw [List.mem_mergeSort, List.mem_filter] at h1
  simpa using h1.2

unseal List.merge List.mergeSort in
/-- C3 witness. -/
theorem C3_witness : sampleB.fork = false :=
  C3_no_forks [sampleB] 6 sampleB (by decide)

/-! ### Lexicographic string order lemmas -/

theorem strLt_nil_right : ∀ (x : Str), strLt x [] = false := by
  intro x
  cases x <;> rfl

theorem strLt_irrefl : ∀ (s : Str), strLt s s = false := by
  intro s
  induction s with
  | nil => rfl
  | cons c cs ih => simp [strLt, lt_irrefl, ih]

theorem strLt_cons_iff (a b : Char) (as bs : Str) :
    strLt (a :: as) (b :: bs) = true ↔ a < b ∨ (a = b ∧ strLt as bs = true) := by
  simp only [strLt]
  rcases lt_trichotomy a b with h | h | h
  · simp [h]
  · subst h
    simp [lt_irrefl]
  · rw [if_neg (asymm h), if_pos h]
    simp [asymm h, ne_of_gt h]

theorem strLt_asymm : ∀ (x y : Str), strLt x y = true → strLt y x = false := by
  intro x
  induction x with
  | nil =>
    intro y hxy
    cases y with
    | nil => rfl
    | cons b bs => rfl
  | cons a as ih =>
    intro y hxy
    cases y with
    | nil => rw [strLt_nil_right] at hxy; cases hxy
    | cons b bs =>
      rw [strLt_cons_iff] at hxy
      rcases hxy with h | ⟨h, h'⟩
      · rw [Bool.eq_false_iff]
        intro hyx
        rw [strLt_cons_iff] at hyx
        rcases hyx with hb | ⟨hb, _⟩
        · exact absurd hb (asymm h)
        · exact absurd hb.symm (ne_of_lt h)
      · subst h
        rw [Bool.eq_false_iff]
        intro hyx
        rw [strLt_cons_iff] at hyx
        rcases hyx with hb | ⟨_, hb⟩
        · exact absurd hb (lt_irrefl a)
        · have := ih bs h'
          rw [hb] at this
          cases this

theorem strLt_trans : ∀ (x y z : Str),
    strLt x y = true → strLt y z = true → strLt x z = true := by
  intro x
  induction x with
  | nil =>
    intro y z hxy hyz
    cases y with
    | nil => rw [strLt_nil_right] at hxy; cases hxy
    | cons b bs =>
      cases z with
      | nil => rw [strLt_nil_right] at hyz; cases hyz
      | cons c cs => rfl
  | cons a as ih =>
    intro y z hxy hyz
    cases y with
    | nil => rw [strLt_nil_right] at hxy; cases hxy
    | cons b bs =>
      cases z with
      | nil => rw [strLt_nil_right] at hyz; cases hyz
      | cons c cs =>
        rw [strLt_cons_iff] at hxy hyz ⊢
        rcases hxy with h1 | ⟨h1, h1'⟩ <;> rcases hyz with h2 | ⟨h2, h2'⟩
        · exact Or.inl (lt_trans h1 h2)
        · exact Or.inl (h2 ▸ h1)
        · exact Or.inl (h1 ▸ h2)
        · exact Or.inr ⟨h1.trans h2, ih bs cs h1' h2'⟩

theorem strLt_connex : ∀ (x y : Str), x ≠ y →
    strLt x y = true ∨ strLt y x = true := by
  intro x
  induction x with
  | nil =>
    intro y hy
    cases y with
    | nil => exact absurd rfl hy
    | cons b bs => exact Or.inl rfl
  | cons a as ih =>
    intro y hy
    cases y with
    | nil => exact Or.inr rfl
    | cons b bs =>
      rcases lt_trichotomy a b with h | h | h
      · exact Or.inl ((strLt_cons_iff _ _ _ _).mpr (Or.inl h))
      · subst h
        have hne : as ≠ bs := fun hh => hy (by rw [hh])
        rcases ih bs hne with h1 | h1
        · exact Or.inl ((strLt_cons_iff _ _ _ _).mpr (Or.inr ⟨rfl, h1⟩))
        · exact Or.inr ((strLt_cons_iff _ _ _ _).mpr (Or.inr ⟨rfl, h1⟩))
      · exact Or.inr ((strLt_cons_iff _ _ _ _).mpr (Or.inl h))

theorem tsGe_trans : ∀ (a b c : Repo), tsGe a b → tsGe b c → tsGe a c := by
  intro a b c hab hbc
  simp only [tsGe, Bool.not_eq_true'] at *
  by_contra hcon
  rw [Bool.not_eq_false] at hcon
  by_cases hxy : effTs a = effTs b
  · rw [hxy] at hcon
    simp [hcon] at hbc
  · rcases strLt_connex _ _ hxy with h1 | h1
    · simp [h1] at hab
    · have := strLt_trans _ _ _ h1 hcon
      simp [this] at hbc

theorem tsGe_total : ∀ (a b : Repo), tsGe a b || tsGe b a := by
  intro a b
  simp only [tsGe, Bool.or_eq_true, Bool.not_eq_true']
  by_cases h : strLt (effTs a) (effTs b) = true
  · exact Or.inr (strLt_asymm _ _ h)
  · exact Or.inl (by simpa using h)

/-! ### C6, C9: the recent-activity sentence -/

/-- Shared shape of `recent_activity_hint` on a non-empty list: the head of
the stable descending sort is a maximal-timestamp repository and is the one
rendered. -/
theorem recent_activity_head (repos : List Repo) (h : repos ≠ []) :
    ∃ latest rest, repos.mergeSort tsGe = latest :: rest ∧
      (∀ r ∈ repos, strLt (effTs latest) (effTs r) = false) ∧
      recent_activity_hint repos = activitySentence latest := by
  have hne : repos.mergeSort tsGe ≠ [] := by
    intro hh
    have hperm := List.mergeSort_perm repos tsGe
    rw [hh] at hperm
    exact h (List.Perm.eq_nil hperm.symm)
  obtain ⟨latest, rest, hsort⟩ := List.exists_cons_of_ne_nil hne
  have hsorted : (repos.mergeSort tsGe).Pairwise (fun a b => tsGe a b = true) :=
    List.sorted_mergeSort tsGe_trans tsGe_total repos
  rw [hsort] at hsorted
  refine ⟨latest, rest, hsort, ?_, ?_⟩
  · intro r hr
    have hr' : r ∈ repos.mergeSort tsGe := List.mem_mergeSort.mpr hr
    rw [hsort] at hr'
    rcases List.mem_cons.mp hr' with rfl | hr''
    · exact strLt_irrefl _
    · have := (List.pairwise_cons.mp hsorted).1 r hr''
      simpa [tsGe, Bool.not_eq_true'] using this
  · have hie : repos.isEmpty = false := by simpa [List.isEmpty_iff] using h
    simp only [recent_activity_hint, hie, Bool.false_eq_true, if_false]
    rw [hsort]

/-- C6: on the empty list `recent_activity_hint` returns the fixed sentence;
on a non-empty list it renders the sentence for a repository of
lexicographically greatest effective timestamp (naming it and the first 10
characters of the timestamp, per `activitySentence`). -/
theorem C6_recent_activity (repos : List Repo) (h : repos ≠ []) :
    recent_activity_hint [] = str "No public activity found." ∧
    ∃ latest, latest ∈ repos ∧
      (∀ r ∈ repos, strLt (effTs latest) (effTs r) = false) ∧
      recent_activity_hint repos = activitySentence latest := by
  refine ⟨rfl, ?_⟩
  obtain ⟨latest, rest, hsort, hmax, heq⟩ := recent_activity_head repos h
  refine ⟨latest, ?_, hmax, heq⟩
  have : latest ∈ repos.mergeSort tsGe := by rw [hsort]; exact List.mem_cons_self _ _
  rwa [List.mem_mergeSort] at this

/-- C6 witness. -/
theorem C6_witness :
    recent_activity_hint [] = str "No public activity found." ∧
    ∃ latest, latest ∈ [sampleB] ∧
      (∀ r ∈ [sampleB], strLt (effTs latest) (effTs r) = false) ∧
      recent_activity_hint [sampleB] = activitySentence latest :=
  C6_recent_activity [sampleB] (by simp)

/-- C9: tie-breaking of `recent_activity_hint` is deterministic: the
repository rendered is the first one in input order attaining the maximal
effective timestamp — every repository strictly before it in the input has a
strictly smaller effective timestamp. -/
theorem C9_activity_tiebreak (repos : List Repo) (h : repos ≠ []) :
    ∃ latest pre post,
      repos = pre ++ latest :: post ∧
      (∀ r ∈ repos, strLt (effTs latest) (effTs r) = false) ∧
      (∀ r ∈ pre, strLt (effTs r) (effTs latest) = true) ∧
      recent_activity_hint repos = activitySentence latest := by
  obtain ⟨latest, rest, hsort, hmax, heq⟩ := recent_activity_head repos h
  set p : Repo → Bool := fun r => decide (effTs r = effTs latest) with hp
  have hpl : p latest = true := by simp [hp]
  have hpw : (repos.filter p).Pairwise (fun a b => tsGe a b = true) := by
    apply List.pairwise_of_forall_mem_list
    intro a ha b hb
    have ha' := (List.mem_filter.mp ha).2
    have hb' := (List.mem_filter.mp hb).2
    rw [hp, decide_eq_true_eq] at ha' hb'
    simp [tsGe, ha', hb', Bool.not_eq_true', strLt_irrefl]
  have hsub : List.Sublist (repos.filter p) (repos.mergeSort tsGe) :=
    List.sublist_mergeSort tsGe_trans tsGe_total hpw (List.filter_sublist repos)
  have hsubf : List.Sublist (repos.filter p) ((repos.mergeSort tsGe).filter p) := by
    have hff : (repos.filter p).filter p = repos.filter p := by
      rw [List.filter_filter]
      simp only [Bool.and_self]
    have := hsub.filter p
    rwa [hff] at this
  have hlen : (repos.filter p).length = ((repos.mergeSort tsGe).filter p).length := by
    rw [← List.countP_eq_length_filter, ← List.countP_eq_length_filter]
    exact ((List.mergeSort_perm repos tsGe).countP_eq p).symm
  have hfeq : repos.filter p = (repos.mergeSort tsGe).filter p :=
    hsubf.eq_of_length hlen
  rw [hsort, List.filter_cons_of_pos hpl] at hfeq
  rw [List.filter_eq_cons_iff] at hfeq
  obtain ⟨pre, post, hsplit, hprenot, -, -⟩ := hfeq
  refine ⟨latest, pre, post, hsplit, hmax, ?_, heq⟩
  intro r hr
  have hrrepos : r ∈ repos := by
    rw [hsplit]
    exact List.mem_append_left _ hr
  have hne : effTs r ≠ effTs latest := by
    have := hprenot r hr
    simpa [hp] using this
  rcases strLt_connex _ _ hne with h1 | h1
  · exact h1
  · have := hmax r hrrepos
    rw [h1] at this
    cases this

/-- C9 witness. -/
theorem C9_witness :
    ∃ latest pre post,
      [sampleB] = pre ++ latest :: post ∧
      (∀ r ∈ [sampleB], strLt (effTs latest) (effTs r) = false) ∧
      (∀ r ∈ pre, strLt (effTs r) (effTs latest) = true) ∧
      recent_activity_hint [sampleB] = activitySentence latest :=
  C9_activity_tiebreak [sampleB] (by simp)

end GitProfile
